import Mathlib

/-!
Verification development for `convert_brats2021_to_twolabel.py`.

The script converts a BraTS2021 three-label tumour segmentation (labels
0 background, 1 NCR/NET, 2 ED, 4 AT) together with an HD-GLIO whole-tumour
segmentation into a two-label volume (0 background, 1 NE, 2 CE).

Volumes are embedded as functions from voxel coordinates of a fixed
`a × b × c` grid to natural numbers.  The scipy library calls
(`ndi.binary_fill_holes`, `ndi.label`) are embedded by their documented
semantics over 6-connectivity, with an executable flood-fill whose
correspondence with path-reachability is proved below.
-/

namespace BratsTwoLabel

/-- A voxel coordinate in an `a × b × c` grid. -/
abbrev Vox (a b c : ℕ) : Type := Fin a × Fin b × Fin c

/-- A 3D label volume over an `a × b × c` grid. -/
abbrev Volume (a b c : ℕ) : Type := Vox a b c → ℕ

variable {a b c : ℕ}

/-- One unit step along a single axis: the two coordinates differ by exactly 1. -/
abbrev axStep (x y : ℕ) : Prop := x + 1 = y ∨ y + 1 = x

/-- Face adjacency (6-connectivity): the voxels differ by exactly one unit along
exactly one axis.  This is the default (squared connectivity 1) structuring
element of both `ndi.binary_fill_holes` and `ndi.label` in 3D. -/
abbrev adj6 (v w : Vox a b c) : Prop :=
  (v.1 = w.1 ∧ v.2.1 = w.2.1 ∧ axStep v.2.2.val w.2.2.val) ∨
  (v.1 = w.1 ∧ axStep v.2.1.val w.2.1.val ∧ v.2.2 = w.2.2) ∨
  (axStep v.1.val w.1.val ∧ v.2.1 = w.2.1 ∧ v.2.2 = w.2.2)

/-- A voxel on one of the six outer faces of the grid. -/
abbrev onBoundary (v : Vox a b c) : Prop :=
  v.1.val = 0 ∨ v.1.val + 1 = a ∨ v.2.1.val = 0 ∨ v.2.1.val + 1 = b ∨
  v.2.2.val = 0 ∨ v.2.2.val + 1 = c

/-- One expansion of a flood front: add every voxel satisfying `B` that is
face-adjacent to a voxel already in the front. -/
def floodStep (B : Vox a b c → Prop) [DecidablePred B] (s : Finset (Vox a b c)) :
    Finset (Vox a b c) :=
  s ∪ Finset.univ.filter (fun v => B v ∧ ∃ w ∈ s, adj6 v w)

/-- Saturated flood fill: iterating the expansion as many times as there are
voxels reaches the set of all voxels connected to the seed set through
`B`-voxels. -/
def closure (B : Vox a b c → Prop) [DecidablePred B] (start : Finset (Vox a b c)) :
    Finset (Vox a b c) :=
  (floodStep B)^[Fintype.card (Vox a b c)] start

/-- One step of a path through `B`-voxels: a face-adjacent move between two
voxels both satisfying `B`. -/
def stepRel (B : Vox a b c → Prop) (v w : Vox a b c) : Prop :=
  adj6 v w ∧ B v ∧ B w

/-- Path reachability: `v` is reachable from some voxel of `start` through a
chain of face-adjacent steps staying inside `B`. -/
def Reaches (B : Vox a b c → Prop) (start : Finset (Vox a b c)) (v : Vox a b c) :
    Prop :=
  ∃ s ∈ start, Relation.ReflTransGen (stepRel B) s v

/-- The background voxels of `F` lying on the outer boundary of the grid:
the seeds of the hole-filling flood. -/
def boundaryBackground (F : Volume a b c) : Finset (Vox a b c) :=
  Finset.univ.filter (fun v => F v = 0 ∧ onBoundary v)

/-- Reachability of `v` from the outer boundary of the volume through
background (`F = 0`) voxels via 6-connected steps. -/
def OutsideReachable (F : Volume a b c) (v : Vox a b c) : Prop :=
  Reaches (fun w => F w = 0) (boundaryBackground F) v

/-- Modelled from the spec: `scipy.ndimage.binary_fill_holes` with its default
structuring element (6-connectivity in 3D), called at line 78 of the source.
Background voxels reachable from the outer boundary of the array through
background stay 0; every other voxel (the input foreground and the enclosed
holes) becomes 1.  The flood is the executable saturated `closure`. -/
def binary_fill_holes (F : Volume a b c) : Volume a b c :=
  fun v => if v ∈ closure (fun w => F w = 0) (boundaryBackground F) then 0 else 1

/-- Source line 73: `NE = np.where(((d_hdglio != 0) & (d_brats == 1)) | (d_brats == 2), 1, 0)`. -/
def maskCombiner (d_brats d_hdglio : Volume a b c) : Volume a b c :=
  fun v => if (d_hdglio v ≠ 0 ∧ d_brats v = 1) ∨ d_brats v = 2 then 1 else 0

/-- Source line 77: `AT = np.where(d_brats == 4, 1, 0)`. -/
def atMaskOf (d_brats : Volume a b c) : Volume a b c :=
  fun v => if d_brats v = 4 then 1 else 0

/-- Source line 79: `enclosed_NCR = np.where((filled_AT == 1) & (AT == 0), 1, 0)`. -/
def enclosedNCR (d_brats : Volume a b c) : Volume a b c :=
  fun v =>
    if binary_fill_holes (atMaskOf d_brats) v = 1 ∧ atMaskOf d_brats v = 0 then 1
    else 0

/-- Source line 80: `NE = np.where(enclosed_NCR == 1, 0, NE)`. -/
def enclosureFiller (d_brats M0 : Volume a b c) : Volume a b c :=
  fun v => if enclosedNCR d_brats v = 1 then 0 else M0 v

/-- The 6-connected component of `v` inside the nonzero voxels of `M`
(empty seed when `M v = 0`), computed by the executable flood. -/
def componentOf (M : Volume a b c) (v : Vox a b c) : Finset (Vox a b c) :=
  closure (fun w => M w ≠ 0) (Finset.univ.filter (fun w => w = v ∧ M w ≠ 0))

/-- Modelled from the spec: source lines 84-88.  `ndi.label` (default
6-connectivity) gives every connected component of the nonzero voxels of `M` a
nonzero id and background id 0; `np.unique(..., return_counts=True)` counts
the voxels of each id, so the count at a nonzero voxel `v` is the cardinality
of its component; `lbls_above_thr` keeps ids with count strictly above the
threshold, excluding id 0; `NE_out = np.where(np.isin(labelled_NE,
lbls_above_thr) | (d_brats == 2), 1, 0)`. -/
def componentSizeFilter (M d_brats : Volume a b c) (threshold : ℕ) : Volume a b c :=
  fun v =>
    if (M v ≠ 0 ∧ threshold < (componentOf M v).card) ∨ d_brats v = 2 then 1
    else 0

/-- Source line 91: `d_out = np.where(d_brats == 4, 2, NE_out)`. -/
def labelMerger (d_brats M2 : Volume a b c) : Volume a b c :=
  fun v => if d_brats v = 4 then 2 else M2 v

/-- The candidate mask fed to the size filter: the combined mask, with the
enclosure filling applied iff `at_fill` is set (source lines 73-80). -/
def preMask (d_brats d_hdglio : Volume a b c) ( at_fill : Bool) : Volume a b c :=
  if at_fill then enclosureFiller d_brats (maskCombiner d_brats d_hdglio)
  else maskCombiner d_brats d_hdglio

/-- Source lines 67-93: the in-memory conversion
`convert_data_brats2021_to_twolabel(d_brats, d_hdglio, cluster_size_threshold, at_fill)`. -/
def convert_data_brats2021_to_twolabel (d_brats d_hdglio : Volume a b c)
    (cluster_size_threshold : ℕ) ( at_fill : Bool) : Volume a b c :=
  labelMerger d_brats
    (componentSizeFilter (preMask d_brats d_hdglio at_fill) d_brats
      cluster_size_threshold)

/-- Source lines 96-107, data path only (NIfTI reading/writing and the uint8
cast elided).  Line 104 of the source passes `at_fill=True` to
`convert_data_brats2021_to_twolabel` regardless of the function's own
`at_fill` parameter; the embedding reproduces that literally. -/
def convert_file_brats2021_to_twolabel (d_brats d_hdglio : Volume a b c)
    (cluster_size_threshold : ℕ) ( at_fill : Bool) : Volume a b c :=
  convert_data_brats2021_to_twolabel d_brats d_hdglio cluster_size_threshold true

/-- Modelled from the spec: Python's built-in `bool` applied by
`argparse` to the raw command-line string when an option is declared with
`type=bool` (source line 116).  A string is truthy iff it is non-empty. -/
def pyBool (s : String) : Bool := s != ""

/-- Source lines 110-126: the command line entry point, data path only.  The
`--at_fill` option string is converted by `type=bool`, then handed to
`convert_file_brats2021_to_twolabel`. -/
def mainConvert (d_brats d_hdglio : Volume a b c) (cluster_size_threshold : ℕ)
    ( at_fill_arg : String) : Volume a b c :=
  convert_file_brats2021_to_twolabel d_brats d_hdglio cluster_size_threshold
    (pyBool at_fill_arg)

/-- A 3D array shape. -/
structure Shape3 where
  x : ℕ
  y : ℕ
  z : ℕ
deriving DecidableEq

/-- Two same-rank axes are broadcast-compatible iff equal or one of them is 1. -/
abbrev axBroadcastable (m n : ℕ) : Prop := m = n ∨ m = 1 ∨ n = 1

/-- numpy broadcast compatibility of two rank-3 shapes. -/
abbrev broadcastable (s t : Shape3) : Prop :=
  axBroadcastable s.x t.x ∧ axBroadcastable s.y t.y ∧ axBroadcastable s.z t.z

/-- The shape of the broadcast result of two compatible rank-3 shapes. -/
def broadcastShape (s t : Shape3) : Shape3 :=
  Shape3.mk (max s.x t.x) (max s.y t.y) (max s.z t.z)

/-- The error surfaced when the two volumes cannot be combined elementwise. -/
inductive ConvError where
  | shapeMismatch
deriving DecidableEq

/-- Modelled from the spec: the shape-level behaviour of the elementwise numpy
operations inside `convert_data_brats2021_to_twolabel`.  The source has no
explicit shape check; the first elementwise combination (line 73) raises a
`ValueError` iff the two operand shapes are not broadcast-compatible, before
any output is produced, and otherwise broadcasts. -/
def convertShapes (s t : Shape3) : Except ConvError Shape3 :=
  if broadcastable s t then Except.ok (broadcastShape s t)
  else Except.error ConvError.shapeMismatch

/-- Concrete 3×3×3 primary volume: NCR/NET (label 1) at the centre voxel,
enhancing tissue (label 4) everywhere else — a hollow AT shell enclosing a
necrosis pocket. -/
def pShell : Volume 3 3 3 :=
  fun v => if v = ((1 : Fin 3), (1 : Fin 3), (1 : Fin 3)) then 1 else 4

/-- Concrete 3×3×3 auxiliary volume: whole tumour everywhere. -/
def aAllOne : Volume 3 3 3 := fun _ => 1

/-- Concrete single-voxel volume holding edema (label 2). -/
def pEdema : Volume 1 1 1 := fun _ => 2

/-- Concrete single-voxel volume of zeros. -/
def pZero : Volume 1 1 1 := fun _ => 0

/-- Concrete single-voxel volume of ones. -/
def mOne : Volume 1 1 1 := fun _ => 1

/-- The unique voxel of a 1×1×1 grid. -/
def v0 : Vox 1 1 1 := ((0 : Fin 1), (0 : Fin 1), (0 : Fin 1))

/-- Concrete single-voxel volume holding enhancing tissue (label 4). -/
def pFour : Volume 1 1 1 := fun _ => 4

/-- Concrete 2×1×1 volume of twos. -/
def pTwoA : Volume 2 1 1 := fun _ => 2

/-- Concrete 2×1×1 volume: 2 at the first voxel, 7 at the second — agrees with
`pTwoA` at the first voxel only. -/
def pTwoB : Volume 2 1 1 := fun v => if v.1 = 0 then 2 else 7

/-- Concrete 2×1×1 volume of ones. -/
def mTwo : Volume 2 1 1 := fun _ => 1

/-- The first voxel of a 2×1×1 grid. -/
def w0 : Vox 2 1 1 := ((0 : Fin 2), (0 : Fin 1), (0 : Fin 1))

/-- The flood front never loses voxels. -/
theorem subset_floodStep (B : Vox a b c → Prop) [DecidablePred B]
    (s : Finset (Vox a b c)) : s ⊆ floodStep B s :=
  Finset.subset_union_left

/-- While an inflationary iteration has not stabilised, its cardinality grows
by at least one per step. -/
theorem card_add_le_iterate {α : Type} [DecidableEq α] (f : Finset α → Finset α)
    (hf : ∀ s, s ⊆ f s) (s : Finset α) :
    ∀ k : ℕ, (∀ j < k, f^[j+1] s ≠ f^[j] s) → s.card + k ≤ (f^[k] s).card := by
  intro k
  induction k with
  | zero => intro _; simp
  | succ n ih =>
    intro h
    have h1 : s.card + n ≤ (f^[n] s).card := ih fun j hj => h j (Nat.lt_succ_of_lt hj)
    have hsub : f^[n] s ⊆ f^[n+1] s := by
      rw [Function.iterate_succ_apply']
      exact hf _
    have hne : f^[n] s ≠ f^[n+1] s := fun h2 => h n (Nat.lt_succ_self n) h2.symm
    have hlt : (f^[n] s).card < (f^[n+1] s).card :=
      Finset.card_lt_card (Finset.ssubset_iff_subset_ne.mpr ⟨hsub, hne⟩)
    omega

/-- An inflationary iteration on the finite subsets of a fintype reaches a
fixed point within `card` steps. -/
theorem exists_iterate_fixpoint {α : Type} [Fintype α] [DecidableEq α]
    (f : Finset α → Finset α) (hf : ∀ s, s ⊆ f s) (s : Finset α) :
    ∃ j ≤ Fintype.card α, f^[j+1] s = f^[j] s := by
  by_contra hcon
  push_neg at hcon
  have h1 := card_add_le_iterate f hf s (Fintype.card α + 1)
    (fun j hj => hcon j (Nat.lt_succ_iff.mp hj))
  have h2 : (f^[Fintype.card α + 1] s).card ≤ Fintype.card α := by
    simpa using Finset.card_le_univ (f^[Fintype.card α + 1] s)
  omega

/-- Once an iteration stabilises it stays at the same value. -/
theorem iterate_eq_of_fixpoint {α : Type} (f : α → α) {x : α} {j : ℕ}
    (hfix : f^[j+1] x = f^[j] x) : ∀ m, j ≤ m → f^[m] x = f^[j] x := by
  intro m hm
  obtain ⟨t, rfl⟩ := Nat.exists_eq_add_of_le hm
  rw [Nat.add_comm, Function.iterate_add_apply]
  exact Function.iterate_fixed ((Function.iterate_succ_apply' f j x).symm.trans hfix) t

/-- The saturated flood is a fixed point of the expansion step. -/
theorem closure_fixed (B : Vox a b c → Prop) [DecidablePred B]
    (start : Finset (Vox a b c)) :
    floodStep B (closure B start) = closure B start := by
  obtain ⟨j, hj, hfix⟩ :=
    exists_iterate_fixpoint (floodStep B) (fun s => subset_floodStep B s) start
  have hN := iterate_eq_of_fixpoint (floodStep B) hfix (Fintype.card (Vox a b c)) hj
  unfold closure
  rw [hN]
  exact (Function.iterate_succ_apply' (floodStep B) j start).symm.trans hfix

/-- The seed set is contained in every iterate of an inflationary map. -/
theorem subset_iterate {α : Type} (f : Finset α → Finset α) (hf : ∀ s, s ⊆ f s)
    (s : Finset α) : ∀ k, s ⊆ f^[k] s := by
  intro k
  induction k with
  | zero => simp
  | succ n ih =>
    rw [Function.iterate_succ_apply']
    exact ih.trans (hf _)

/-- Every voxel the flood reaches satisfies `B`, provided all seeds do. -/
theorem iterate_mem_B (B : Vox a b c → Prop) [DecidablePred B]
    (start : Finset (Vox a b c)) (hstart : ∀ x ∈ start, B x) :
    ∀ k x, x ∈ (floodStep B)^[k] start → B x := by
  intro k
  induction k with
  | zero =>
    intro x hx
    rw [Function.iterate_zero_apply] at hx
    exact hstart x hx
  | succ n ih =>
    intro x hx
    rw [Function.iterate_succ_apply'] at hx
    rcases Finset.mem_union.mp hx with h | h
    · exact ih x h
    · exact (Finset.mem_filter.mp h).2.1

/-- Face adjacency is symmetric. -/
theorem adj6_symm {v w : Vox a b c} (h : adj6 v w) : adj6 w v := by
  rcases h with ⟨h1, h2, h3⟩ | ⟨h1, h2, h3⟩ | ⟨h1, h2, h3⟩
  · exact Or.inl ⟨h1.symm, h2.symm, h3.symm⟩
  · exact Or.inr (Or.inl ⟨h1.symm, h2.symm, h3.symm⟩)
  · exact Or.inr (Or.inr ⟨h1.symm, h2.symm, h3.symm⟩)

/-- Soundness of the executable flood: every voxel in an iterate is reachable
from the seed set through a `B`-path. -/
theorem mem_iterate_reaches (B : Vox a b c → Prop) [DecidablePred B]
    (start : Finset (Vox a b c)) (hstart : ∀ x ∈ start, B x) :
    ∀ k v, v ∈ (floodStep B)^[k] start → Reaches B start v := by
  intro k
  induction k with
  | zero =>
    intro v hv
    rw [Function.iterate_zero_apply] at hv
    exact ⟨v, hv, Relation.ReflTransGen.refl⟩
  | succ n ih =>
    intro v hv
    rw [Function.iterate_succ_apply'] at hv
    rcases Finset.mem_union.mp hv with h | h
    · exact ih v h
    · obtain ⟨-, hBv, w, hw, hadj⟩ := Finset.mem_filter.mp h
      obtain ⟨s, hs, hpath⟩ := ih w hw
      exact ⟨s, hs,
        hpath.tail ⟨adj6_symm hadj, iterate_mem_B B start hstart n w hw, hBv⟩⟩

/-- Completeness of the executable flood: every voxel reachable from the seed
set through a `B`-path is in the saturated flood. -/
theorem reaches_mem_closure (B : Vox a b c → Prop) [DecidablePred B]
    (start : Finset (Vox a b c)) {v : Vox a b c}
    (h : Reaches B start v) : v ∈ closure B start := by
  obtain ⟨s, hs, hpath⟩ := h
  induction hpath with
  | refl =>
    exact subset_iterate (floodStep B) (fun t => subset_floodStep B t) start
      (Fintype.card (Vox a b c)) hs
  | tail hxy hstep ih =>
    rw [← closure_fixed B start]
    exact Finset.mem_union_right _ (Finset.mem_filter.mpr
      ⟨Finset.mem_univ _, hstep.2.2, _, ih, adj6_symm hstep.1⟩)

/-- The executable saturated flood computes exactly path reachability. -/
theorem mem_closure_iff_reaches (B : Vox a b c → Prop) [DecidablePred B]
    (start : Finset (Vox a b c)) (hstart : ∀ x ∈ start, B x) (v : Vox a b c) :
    v ∈ closure B start ↔ Reaches B start v :=
  ⟨mem_iterate_reaches B start hstart (Fintype.card (Vox a b c)) v,
   reaches_mem_closure B start⟩

/-- A reachable voxel satisfies `B`, provided all seeds do. -/
theorem reaches_imp_B (B : Vox a b c → Prop) [DecidablePred B]
    (start : Finset (Vox a b c)) (hstart : ∀ x ∈ start, B x) {v : Vox a b c}
    (h : Reaches B start v) : B v := by
  obtain ⟨s, hs, hpath⟩ := h
  rcases Relation.ReflTransGen.cases_tail hpath with heq | ⟨w, -, hstep⟩
  · rw [heq]
    exact hstart s hs
  · exact hstep.2.2

/-- A straight path along the first axis, through a predicate holding
everywhere. -/
theorem path_along_first_axis (B : Vox a b c → Prop) (hB : ∀ w, B w)
    (y : Fin b) (z : Fin c) :
    ∀ (n : ℕ) (hn : n < a),
      Relation.ReflTransGen (stepRel B)
        ((⟨0, Nat.lt_of_le_of_lt (Nat.zero_le n) hn⟩ : Fin a), y, z)
        ((⟨n, hn⟩ : Fin a), y, z) := by
  intro n
  induction n with
  | zero => intro hn; exact Relation.ReflTransGen.refl
  | succ m ih =>
    intro hn
    exact (ih (Nat.lt_of_succ_lt hn)).tail
      ⟨Or.inr (Or.inr ⟨Or.inl rfl, rfl, rfl⟩), hB _, hB _⟩

/-- When `B` holds everywhere, every voxel is reachable from the boundary
seeds: walk in from the face with first coordinate 0. -/
theorem reaches_of_all_B (B : Vox a b c → Prop) [DecidablePred B]
    (hB : ∀ w, B w) (v : Vox a b c) :
    Reaches B (Finset.univ.filter (fun w => B w ∧ onBoundary w)) v := by
  refine ⟨((⟨0, v.1.pos⟩ : Fin a), v.2.1, v.2.2), ?_, ?_⟩
  · exact Finset.mem_filter.mpr ⟨Finset.mem_univ _, hB _, Or.inl rfl⟩
  · exact path_along_first_axis B hB v.2.1 v.2.2 v.1.val v.1.isLt

/-- Unfolding characterisation of the size filter output. -/
theorem componentSizeFilter_eq_one_iff (M P : Volume a b c) (T : ℕ)
    (v : Vox a b c) :
    componentSizeFilter M P T v = 1 ↔
      (M v ≠ 0 ∧ T < (componentOf M v).card) ∨ P v = 2 := by
  unfold componentSizeFilter
  by_cases h : (M v ≠ 0 ∧ T < (componentOf M v).card) ∨ P v = 2
  · rw [if_pos h]
    exact iff_of_true rfl h
  · rw [if_neg h]
    exact iff_of_false (by omega) h

/-- The size filter only outputs 0 or 1. -/
theorem componentSizeFilter_zero_or_one (M P : Volume a b c) (T : ℕ)
    (v : Vox a b c) :
    componentSizeFilter M P T v = 0 ∨ componentSizeFilter M P T v = 1 := by
  unfold componentSizeFilter
  by_cases h : (M v ≠ 0 ∧ T < (componentOf M v).card) ∨ P v = 2
  · exact Or.inr (if_pos h)
  · exact Or.inl (if_neg h)

/-- The AT mask is nonzero exactly on the enhancing-tissue voxels. -/
theorem atMaskOf_ne_zero_iff (P : Volume a b c) (v : Vox a b c) :
    atMaskOf P v ≠ 0 ↔ P v = 4 := by
  unfold atMaskOf
  by_cases h : P v = 4
  · rw [if_pos h]
    exact iff_of_true one_ne_zero h
  · rw [if_neg h]
    exact iff_of_false (fun hc => hc rfl) h

/-- Characterisation of the hole filling: a voxel is set in the filled mask
iff it is foreground, or background unreachable from the outer boundary
through background. -/
theorem binary_fill_holes_eq_one_iff (F : Volume a b c) (v : Vox a b c) :
    binary_fill_holes F v = 1 ↔ (F v ≠ 0 ∨ ¬ OutsideReachable F v) := by
  have hseed : ∀ x ∈ boundaryBackground F, F x = 0 := by
    intro x hx
    exact (Finset.mem_filter.mp hx).2.1
  unfold binary_fill_holes
  by_cases hv : v ∈ closure (fun w => F w = 0) (boundaryBackground F)
  · rw [if_pos hv]
    have hreach : OutsideReachable F v :=
      mem_iterate_reaches (fun w => F w = 0) (boundaryBackground F) hseed
        (Fintype.card (Vox a b c)) v hv
    have hFv : F v = 0 :=
      reaches_imp_B (fun w => F w = 0) (boundaryBackground F) hseed hreach
    exact iff_of_false (by omega)
      (fun h => h.elim (fun h1 => h1 hFv) (fun h2 => h2 hreach))
  · rw [if_neg hv]
    exact iff_of_true rfl
      (Or.inr (fun hr => hv (reaches_mem_closure (fun w => F w = 0)
        (boundaryBackground F) hr)))

/-- C3: MaskCombiner is a pure pointwise map: at every voxel the candidate
mask is the 0/1 indicator of `(A[v] != 0 AND P[v] == 1) OR (P[v] == 2)`, and
the value at a voxel depends on the inputs at that voxel only, not on any
other voxel. -/
theorem maskCombiner_pointwise :
    (∀ (a b c : ℕ) (P A : Volume a b c) (v : Vox a b c),
      maskCombiner P A v = if (A v ≠ 0 ∧ P v = 1) ∨ P v = 2 then 1 else 0) ∧
    (∀ (a b c : ℕ) (P P₁ A A₁ : Volume a b c) (v : Vox a b c),
      P v = P₁ v → A v = A₁ v → maskCombiner P A v = maskCombiner P₁ A₁ v) := by
  constructor
  · intro a b c P A v
    rfl
  · intro a b c P P₁ A A₁ v hP hA
    unfold maskCombiner
    rw [hP, hA]

/-- C3 witness: concrete application on a 2×1×1 grid, at the voxel where the
two primary volumes agree. -/
theorem maskCombiner_pointwise_witness :
    maskCombiner pTwoA mTwo w0 = (if ((mTwo w0 ≠ 0 ∧ pTwoA w0 = 1) ∨ pTwoA w0 = 2) then 1 else 0) ∧
    maskCombiner pTwoA mTwo w0 = maskCombiner pTwoB mTwo w0 :=
  ⟨maskCombiner_pointwise.1 2 1 1 pTwoA mTwo w0,
   maskCombiner_pointwise.2 2 1 1 pTwoA pTwoB mTwo mTwo w0 (by decide) rfl⟩

/-- C6: LabelMerger is the total pointwise map `D[v] = 2 if P[v] == 4 else
(1 if M2[v] else 0)`; enhancing tissue always wins regardless of the mask, and
every voxel of the full conversion output lies in {0, 1, 2}. -/
theorem labelMerger_total_formula :
    (∀ (a b c : ℕ) (P M2 : Volume a b c) (v : Vox a b c),
      labelMerger P M2 v = if P v = 4 then 2 else M2 v) ∧
    (∀ (a b c : ℕ) (P M2 : Volume a b c) (v : Vox a b c),
      P v = 4 → labelMerger P M2 v = 2) ∧
    (∀ (a b c : ℕ) (P A : Volume a b c) (T : ℕ) (fl : Bool) (v : Vox a b c),
      convert_data_brats2021_to_twolabel P A T fl v =
        if P v = 4 then 2
        else if componentSizeFilter (preMask P A fl) P T v = 1 then 1 else 0) ∧
    (∀ (a b c : ℕ) (P A : Volume a b c) (T : ℕ) (fl : Bool) (v : Vox a b c),
      convert_data_brats2021_to_twolabel P A T fl v = 0 ∨
      convert_data_brats2021_to_twolabel P A T fl v = 1 ∨
      convert_data_brats2021_to_twolabel P A T fl v = 2) := by
  have hform : ∀ (a b c : ℕ) (P A : Volume a b c) (T : ℕ) (fl : Bool)
      (v : Vox a b c),
      convert_data_brats2021_to_twolabel P A T fl v =
        if P v = 4 then 2
        else if componentSizeFilter (preMask P A fl) P T v = 1 then 1 else 0 := by
    intro a b c P A T fl v
    unfold convert_data_brats2021_to_twolabel labelMerger
    by_cases h4 : P v = 4
    · rw [if_pos h4, if_pos h4]
    · rw [if_neg h4, if_neg h4]
      rcases componentSizeFilter_zero_or_one (preMask P A fl) P T v with h0 | h1
      · rw [h0, if_neg (by omega)]
      · rw [h1, if_pos rfl]
  refine ⟨fun a b c P M2 v => rfl, ?_, hform, ?_⟩
  · intro a b c P M2 v h4
    unfold labelMerger
    rw [if_pos h4]
  · intro a b c P A T fl v
    rw [hform a b c P A T fl v]
    by_cases h4 : P v = 4
    · rw [if_pos h4]
      omega
    · rw [if_neg h4]
      by_cases h1 : componentSizeFilter (preMask P A fl) P T v = 1
      · rw [if_pos h1]
        omega
      · rw [if_neg h1]
        omega

/-- C6 witness: concrete application at a voxel labelled 4. -/
theorem labelMerger_total_formula_witness :
    labelMerger pFour mOne v0 = 2 :=
  labelMerger_total_formula.2.1 1 1 1 pFour mOne v0 rfl

/-- C7: edema preservation: `P[v] == 2` forces the filtered mask to 1 at `v`,
and a filtered-mask 1 forces the final output to be 1 unless the voxel is
enhancing tissue. -/
theorem edema_preserved :
    ∀ (a b c : ℕ) (P A : Volume a b c) (T : ℕ) (fl : Bool) (v : Vox a b c),
      (P v = 2 → componentSizeFilter (preMask P A fl) P T v = 1) ∧
      (componentSizeFilter (preMask P A fl) P T v = 1 →
        convert_data_brats2021_to_twolabel P A T fl v = 1 ∨ P v = 4) := by
  intro a b c P A T fl v
  constructor
  · intro h2
    exact (componentSizeFilter_eq_one_iff (preMask P A fl) P T v).mpr (Or.inr h2)
  · intro hM
    by_cases h4 : P v = 4
    · exact Or.inr h4
    · left
      unfold convert_data_brats2021_to_twolabel labelMerger
      rw [if_neg h4]
      exact hM

/-- C7 witness: concrete application on a single edema voxel. -/
theorem edema_preserved_witness :
    componentSizeFilter (preMask pEdema mOne true) pEdema 50 v0 = 1 ∧
    (convert_data_brats2021_to_twolabel pEdema mOne 50 true v0 = 1 ∨
      pEdema v0 = 4) :=
  ⟨(edema_preserved 1 1 1 pEdema mOne 50 true v0).1 rfl,
   (edema_preserved 1 1 1 pEdema mOne 50 true v0).2
     ((edema_preserved 1 1 1 pEdema mOne 50 true v0).1 rfl)⟩

/-- C8: threshold monotonicity: for fixed inputs and fill setting, raising the
threshold can only shrink the filtered mask, and edema voxels are in the mask
under both thresholds. -/
theorem threshold_monotone :
    ∀ (a b c : ℕ) (P A : Volume a b c) (fl : Bool) (T₁ T₂ : ℕ), T₁ < T₂ →
      (∀ v, componentSizeFilter (preMask P A fl) P T₂ v = 1 →
        componentSizeFilter (preMask P A fl) P T₁ v = 1) ∧
      (∀ v, P v = 2 →
        componentSizeFilter (preMask P A fl) P T₁ v = 1 ∧
        componentSizeFilter (preMask P A fl) P T₂ v = 1) := by
  intro a b c P A fl T₁ T₂ hT
  constructor
  · intro v hv
    rcases (componentSizeFilter_eq_one_iff (preMask P A fl) P T₂ v).mp hv with
      ⟨hM, hlt⟩ | h2
    · exact (componentSizeFilter_eq_one_iff (preMask P A fl) P T₁ v).mpr
        (Or.inl ⟨hM, Nat.lt_trans hT hlt⟩)
    · exact (componentSizeFilter_eq_one_iff (preMask P A fl) P T₁ v).mpr
        (Or.inr h2)
  · intro v h2
    exact ⟨(componentSizeFilter_eq_one_iff (preMask P A fl) P T₁ v).mpr (Or.inr h2),
      (componentSizeFilter_eq_one_iff (preMask P A fl) P T₂ v).mpr (Or.inr h2)⟩

/-- C8 witness: concrete application with thresholds 0 < 1 on a single edema
voxel. -/
theorem threshold_monotone_witness :
    componentSizeFilter (preMask pEdema mOne true) pEdema 0 v0 = 1 ∧
    componentSizeFilter (preMask pEdema mOne true) pEdema 1 v0 = 1 :=
  (threshold_monotone 1 1 1 pEdema mOne true 0 1 (by omega)).2 v0 rfl

/-- C10: shrink invariant: the size filter never sets a voxel that was neither
in its input mask nor labelled edema in the primary volume. -/
theorem componentSizeFilter_shrink :
    ∀ (a b c : ℕ) (M P : Volume a b c) (T : ℕ) (v : Vox a b c),
      componentSizeFilter M P T v = 1 → M v ≠ 0 ∨ P v = 2 := by
  intro a b c M P T v hv
  rcases (componentSizeFilter_eq_one_iff M P T v).mp hv with ⟨hM, -⟩ | h2
  · exact Or.inl hM
  · exact Or.inr h2

/-- C10 witness: concrete application on a single-voxel mask. -/
theorem componentSizeFilter_shrink_witness :
    mOne v0 ≠ 0 ∨ pZero v0 = 2 :=
  componentSizeFilter_shrink 1 1 1 mOne pZero 0 v0 (by decide)

/-- C9: the command-line boolean option for enclosure filling parses every
non-empty string — including the literal texts "false" and "False" — as true;
only the empty string yields false. -/
theorem at_fill_option_parses_nonempty_as_true :
    pyBool "false" = true ∧ pyBool "False" = true ∧
    (∀ s : String, pyBool s = false ↔ s = "") ∧
    (∀ s : String, pyBool s = true ↔ s ≠ "") := by
  refine ⟨by decide, by decide, ?_, ?_⟩
  · intro s
    unfold pyBool
    simp
  · intro s
    unfold pyBool
    simp

/-- C2 counterexample: the shapes (2,1,1) and (1,1,1) differ, yet the
conversion does not reject them — numpy broadcasts them and the transform
proceeds, so not every unequal shape pair is rejected. -/
theorem shape_mismatch_counterexample :
    Shape3.mk 2 1 1 ≠ Shape3.mk 1 1 1 ∧
    convertShapes (Shape3.mk 2 1 1) (Shape3.mk 1 1 1) =
      Except.ok (Shape3.mk 2 1 1) := by
  constructor
  · decide
  · rfl

/-- C2 amended: the transform fails (before any output is produced) exactly
when the two shapes are not numpy-broadcast-compatible; in particular the
spec's scenario (10,10,10) vs (8,10,10) is rejected. -/
theorem shape_mismatch_amended :
    (∀ s t : Shape3,
      convertShapes s t = Except.error ConvError.shapeMismatch ↔
        ¬ broadcastable s t) ∧
    convertShapes (Shape3.mk 10 10 10) (Shape3.mk 8 10 10) =
      Except.error ConvError.shapeMismatch := by
  constructor
  · intro s t
    unfold convertShapes
    by_cases h : broadcastable s t
    · rw [if_pos h]
      exact iff_of_false (fun hc => Except.noConfusion hc) (fun hc => hc h)
    · rw [if_neg h]
      exact iff_of_true rfl h
  · rfl

/-- C1: the enclosure-fill option does not control the public invocation
surface: `convert_file_brats2021_to_twolabel` (and hence the command line)
forwards `True` to the data transform regardless of its own `at_fill`
argument, while at the data level the option genuinely matters — on a 3×3×3
enhancing shell around a necrosis voxel, disabling the fill keeps the centre
(output 1) but the file-level call removes it (output 0) even with the option
disabled. -/
theorem at_fill_ignored_at_file_level :
    (∀ (a b c : ℕ) (P A : Volume a b c) (T : ℕ) (fl : Bool),
      convert_file_brats2021_to_twolabel P A T fl =
        convert_data_brats2021_to_twolabel P A T true) ∧
    (∀ (a b c : ℕ) (P A : Volume a b c) (T : ℕ) (s : String),
      mainConvert P A T s = convert_data_brats2021_to_twolabel P A T true) ∧
    (∀ (a b c : ℕ) (P A : Volume a b c),
      preMask P A false = maskCombiner P A) ∧
    convert_data_brats2021_to_twolabel pShell aAllOne 0 false
      ((1 : Fin 3), (1 : Fin 3), (1 : Fin 3)) = 1 ∧
    convert_data_brats2021_to_twolabel pShell aAllOne 0 true
      ((1 : Fin 3), (1 : Fin 3), (1 : Fin 3)) = 0 ∧
    convert_file_brats2021_to_twolabel pShell aAllOne 0 false
      ((1 : Fin 3), (1 : Fin 3), (1 : Fin 3)) = 0 :=
  ⟨fun a b c P A T fl => rfl, fun a b c P A T s => rfl,
   fun a b c P A => rfl, by decide, by decide, by decide⟩

/-- C4: with filling enabled, the filled AT mask marks exactly the
enhancing-tissue voxels plus the background voxels unreachable from the outer
boundary through 6-connected background paths; the filler output is 0 exactly
on the enclosed voxels (filled and not foreground) and `M0` elsewhere; and
with no enhancing tissue at all nothing is enclosed, so `M1 = M0`. -/
theorem enclosureFiller_correct :
    ∀ (a b c : ℕ) (P M0 : Volume a b c),
      (∀ v, binary_fill_holes (atMaskOf P) v = 1 ↔
        (P v = 4 ∨ ¬ OutsideReachable (atMaskOf P) v)) ∧
      (∀ v, enclosureFiller P M0 v =
        if binary_fill_holes (atMaskOf P) v = 1 ∧ P v ≠ 4 then 0 else M0 v) ∧
      ((∀ v, P v ≠ 4) → ∀ v, enclosureFiller P M0 v = M0 v) := by
  intro a b c P M0
  have hfill : ∀ v, binary_fill_holes (atMaskOf P) v = 1 ↔
      (P v = 4 ∨ ¬ OutsideReachable (atMaskOf P) v) := by
    intro v
    rw [binary_fill_holes_eq_one_iff (atMaskOf P) v, atMaskOf_ne_zero_iff P v]
  have hmask : ∀ v, atMaskOf P v = 0 ↔ P v ≠ 4 := by
    intro v
    constructor
    · intro h0 h4
      exact (atMaskOf_ne_zero_iff P v).mpr h4 (by rw [h0]) |>.elim
    · intro h4
      unfold atMaskOf
      rw [if_neg h4]
  have hstep : ∀ v, enclosureFiller P M0 v =
      if binary_fill_holes (atMaskOf P) v = 1 ∧ P v ≠ 4 then 0 else M0 v := by
    intro v
    by_cases h : binary_fill_holes (atMaskOf P) v = 1 ∧ P v ≠ 4
    · have he : enclosedNCR P v = 1 := by
        unfold enclosedNCR
        exact if_pos ⟨h.1, (hmask v).mpr h.2⟩
      unfold enclosureFiller
      rw [he, if_pos rfl, if_pos h]
    · have he : enclosedNCR P v = 0 := by
        unfold enclosedNCR
        exact if_neg (fun hc => h ⟨hc.1, (hmask v).mp hc.2⟩)
      unfold enclosureFiller
      rw [he, if_neg (by omega), if_neg h]
  refine ⟨hfill, hstep, ?_⟩
  intro hP v
  rw [hstep v]
  have hreach : OutsideReachable (atMaskOf P) v := by
    unfold OutsideReachable boundaryBackground
    exact reaches_of_all_B (fun w => atMaskOf P w = 0) (fun w => (hmask w).mpr (hP w)) v
  have hne : ¬ (binary_fill_holes (atMaskOf P) v = 1 ∧ P v ≠ 4) := by
    intro hc
    rcases (hfill v).mp hc.1 with h4 | hnr
    · exact hc.2 h4
    · exact hnr hreach
  rw [if_neg hne]

/-- C4 witness: concrete application with no enhancing tissue on a single
voxel grid. -/
theorem enclosureFiller_correct_witness :
    enclosureFiller pZero mOne v0 = mOne v0 :=
  (enclosureFiller_correct 1 1 1 pZero mOne).2.2 (by decide) v0

/-- C5: the size filter keeps a voxel iff it is a nonzero mask voxel whose
6-connected component (characterised by face-adjacent chains inside the mask)
has strictly more than `T` voxels, or a primary edema voxel; background is
never retained for its own sake; and the output is a 0/1 mask. -/
theorem componentSizeFilter_correct :
    ∀ (a b c : ℕ) (M P : Volume a b c) (T : ℕ) (v : Vox a b c),
      (componentSizeFilter M P T v = 1 ↔
        (M v ≠ 0 ∧ T < (componentOf M v).card) ∨ P v = 2) ∧
      (M v ≠ 0 → ∀ w, (w ∈ componentOf M v ↔
        Relation.ReflTransGen (stepRel (fun u => M u ≠ 0)) v w)) ∧
      (M v = 0 → (componentSizeFilter M P T v = 1 ↔ P v = 2)) ∧
      (componentSizeFilter M P T v = 0 ∨ componentSizeFilter M P T v = 1) := by
  intro a b c M P T v
  refine ⟨componentSizeFilter_eq_one_iff M P T v, ?_, ?_,
    componentSizeFilter_zero_or_one M P T v⟩
  · intro hv w
    have hseed : ∀ x ∈ Finset.univ.filter (fun w => w = v ∧ M w ≠ 0),
        M x ≠ 0 := by
      intro x hx
      exact (Finset.mem_filter.mp hx).2.2
    unfold componentOf
    rw [mem_closure_iff_reaches (fun u => M u ≠ 0)
      (Finset.univ.filter (fun w => w = v ∧ M w ≠ 0)) hseed w]
    constructor
    · intro hr
      obtain ⟨s, hs, hpath⟩ := hr
      have hsv : s = v := (Finset.mem_filter.mp hs).2.1
      rw [hsv] at hpath
      exact hpath
    · intro hpath
      exact ⟨v, Finset.mem_filter.mpr ⟨Finset.mem_univ _, rfl, hv⟩, hpath⟩
  · intro h0
    rw [componentSizeFilter_eq_one_iff M P T v]
    constructor
    · intro h
      rcases h with ⟨hM, -⟩ | h2
      · exact absurd h0 hM
      · exact h2
    · intro h2
      exact Or.inr h2

/-- C5 witness: concrete applications — the component of the voxel of a
single-voxel mask, and the background case on an all-zero mask. -/
theorem componentSizeFilter_correct_witness :
    (v0 ∈ componentOf mOne v0 ↔
      Relation.ReflTransGen (stepRel (fun u => mOne u ≠ 0)) v0 v0) ∧
    (componentSizeFilter pZero pEdema 0 v0 = 1 ↔ pEdema v0 = 2) :=
  ⟨(componentSizeFilter_correct 1 1 1 mOne pZero 0 v0).2.1 (by decide) v0,
   (componentSizeFilter_correct 1 1 1 pZero pEdema 0 v0).2.2.1 rfl⟩

end BratsTwoLabel
